import Mathlib

/-!
# Shallow embedding of the arena allocator (src/arena.c, src/arena.h)

The C arena is a singly linked chain of blocks; we model the chain as a
`List Block` whose head is the arena's head block.  `size_t` values are
modelled as `Nat` with an explicit `% SIZE_MOD` wherever the C computation
can wrap modulo 2^64.  A pointer returned by `arena_alloc` is modelled as
the pair (index of the satisfying block in the chain, byte offset inside
that block's memory); the C `NULL` return is `AllocResult.nullPtr`.  The
`while` loop of `arena_alloc` appends at most one block per call and then
either succeeds in it or appends identical blocks forever (the growth
formula only reads the head block's capacity and the requested size, both
of which are loop invariants), so the non-terminating case is modelled by
the explicit outcome `AllocResult.divergeLoop`.

Byte contents of the blocks' backing memory (needed for the `memcpy` in
`arena_realloc`) are modelled as a total function
`Nat → Nat → Nat` (block index → offset → byte); `malloc`ed memory is
uninitialised, so fresh blocks simply carry whatever the function says.
-/

/-- Modulus of `size_t` arithmetic on the 64-bit targets the code assumes. -/
def SIZE_MOD : Nat := 2 ^ 64

/-- `#define ARENA_INIT_SIZE 128` (arena.h). -/
def ARENA_INIT_SIZE : Nat := 128

/-- `#define ARENA_ALIGNMENT 8` (arena.h). -/
def ARENA_ALIGNMENT : Nat := 8

/-- One `Arena` struct of the C code, minus the `next` pointer (the chain
is the surrounding list).  `capacity` and `used` are the `capacity` and
`size` fields; `data` records whether the block's memory pointer is
non-`NULL` (`some ()`) or `NULL` (`none`). -/
structure Block where
  capacity : Nat
  used : Nat
  data : Option Unit
deriving DecidableEq

/-- Outcome of `arena_alloc` / `arena_realloc`: the C `NULL` return, a
pointer (block index, byte offset), or non-termination of the growth
loop. -/
inductive AllocResult where
  | nullPtr : AllocResult
  | ok (blockIdx offset : Nat) : AllocResult
  | divergeLoop : AllocResult
deriving DecidableEq

/-- `arena_align_size(size, alignment)` = `(size + alignment - 1) & ~(alignment - 1)`.
For a power-of-two `alignment`, masking with `~(alignment - 1)` clears the
low bits, i.e. rounds down to a multiple of `alignment`; the sum is first
reduced modulo 2^64 as in C. -/
def arena_align_size (size alignment : Nat) : Nat :=
  (size + alignment - 1) % SIZE_MOD / alignment * alignment

/-- `arena_init(capacity)`: substitute the default for 0, acquire memory
(fatal on failure, so the model always gets a block). -/
def arena_init (capacity : Nat) : Block :=
  let c := if capacity = 0 then ARENA_INIT_SIZE else capacity
  { capacity := c, used := 0, data := some () }

/-- The block the growth path of `arena_alloc` appends at the tail:
`arena_init(new_capacity)` with
`new_capacity = (arena->capacity > size) ? arena->capacity * 2 : size * 2`
(`arena->capacity` is the HEAD block's capacity, `size` the aligned size;
the multiplication is `size_t` arithmetic). -/
def newBlock (headCap size : Nat) : Block :=
  arena_init ((if headCap > size then headCap * 2 else size * 2) % SIZE_MOD)

/-- The `while` loop of `arena_alloc`, walking the chain from the block at
index `idx`.  `headCap` is `arena->capacity` (the head block's capacity,
which the growth formula reads), `size` the already-aligned size.  At the
tail, one `newBlock` is created; if the request does not fit in it either,
the C loop would append identical blocks forever (nothing the formula
reads changes between iterations), which we record as `.divergeLoop`. -/
def allocGo (headCap size : Nat) : Nat → List Block → AllocResult × List Block
  | _, [] => (.divergeLoop, [])
  | idx, b :: rest =>
    if (b.used + size) % SIZE_MOD ≤ b.capacity then
      (.ok idx b.used, { b with used := (b.used + size) % SIZE_MOD } :: rest)
    else
      match rest with
      | [] =>
        if ((newBlock headCap size).used + size) % SIZE_MOD ≤ (newBlock headCap size).capacity then
          (.ok (idx + 1) (newBlock headCap size).used,
           [b, { newBlock headCap size with
                  used := ((newBlock headCap size).used + size) % SIZE_MOD }])
        else
          (.divergeLoop, [b, newBlock headCap size])
      | r :: rs =>
        ((allocGo headCap size (idx + 1) (r :: rs)).1,
         b :: (allocGo headCap size (idx + 1) (r :: rs)).2)

/-- `arena_alloc(arena, size)`: `NULL` on a `NULL` arena (empty chain) or
`size = 0`; otherwise align the size and walk the chain from the head. -/
def arena_alloc (blocks : List Block) (size : Nat) : AllocResult × List Block :=
  match blocks with
  | [] => (.nullPtr, blocks)
  | hd :: _ =>
    if size = 0 then (.nullPtr, blocks)
    else allocGo hd.capacity (arena_align_size size ARENA_ALIGNMENT) 0 blocks

/-- `memcpy(new_ptr, old_ptr, n)` on the block-indexed byte store: the `n`
bytes at destination (block `db`, offset `dOff`) become the bytes at
source (block `sb`, offset `sOff`); everything else is unchanged. -/
def memCopy (m : Nat → Nat → Nat) (sb sOff db dOff n : Nat) : Nat → Nat → Nat :=
  fun b o => if b = db ∧ dOff ≤ o ∧ o < dOff + n then m sb (sOff + (o - dOff)) else m b o

/-- `arena_realloc(arena, old_ptr, old_size, new_size)` from arena.c:
`NULL` arena → `NULL`; `new_size == 0` → `NULL`; `old_ptr == NULL` →
`arena_alloc`; `new_size <= old_size` → `old_ptr`; otherwise allocate
`new_size`, and if that gave a pointer, copy `old_size` bytes across. -/
def arena_realloc (blocks : List Block) (m : Nat → Nat → Nat)
    (old : Option (Nat × Nat)) (old_size new_size : Nat) :
    AllocResult × List Block × (Nat → Nat → Nat) :=
  match blocks with
  | [] => (.nullPtr, blocks, m)
  | _ :: _ =>
    if new_size = 0 then (.nullPtr, blocks, m)
    else
      match old with
      | none =>
        let p := arena_alloc blocks new_size
        (p.1, p.2, m)
      | some (ob, oOff) =>
        if new_size ≤ old_size then (.ok ob oOff, blocks, m)
        else
          let p := arena_alloc blocks new_size
          match p.1 with
          | .ok nbIdx nOff => (.ok nbIdx nOff, p.2, memCopy m ob oOff nbIdx nOff old_size)
          | r => (r, p.2, m)

/-- `arena_reset(arena)`: set every block's `size` field to 0, leaving
everything else untouched. -/
def arena_reset (blocks : List Block) : List Block :=
  blocks.map fun b => { b with used := 0 }

/-- `arena_free(arena)`: release all backing memory and the non-head block
structs, and clear the head block's fields
(`capacity = 0`, `size = 0`, `data = NULL`, `next = NULL`). -/
def arena_free (blocks : List Block) : List Block :=
  match blocks with
  | [] => blocks
  | _ :: _ => [{ capacity := 0, used := 0, data := none }]

/-- `arena_total_capacity(arena)`: sum of `capacity` over the chain, in
`size_t` arithmetic. -/
def arena_total_capacity (blocks : List Block) : Nat :=
  blocks.foldl (fun t b => (t + b.capacity) % SIZE_MOD) 0

/-- `arena_total_used(arena)`: sum of `size` over the chain, in `size_t`
arithmetic. -/
def arena_total_used (blocks : List Block) : Nat :=
  blocks.foldl (fun t b => (t + b.used) % SIZE_MOD) 0

/-- Invariant of the data model: every block's used count is at most its
capacity (the `used ≤ capacity` invariant of the spec). -/
def UsedLeCap (bs : List Block) : Prop := ∀ b ∈ bs, b.used ≤ b.capacity

/-- Invariant of the data model: every block's used count is a multiple of
the (default) alignment 8, so the next handle a block returns, at offset
used, is 8-aligned. -/
def AlignedUsed (bs : List Block) : Prop := ∀ b ∈ bs, 8 ∣ b.used

/-- A sequence of consecutive arena_alloc calls (no intervening reset):
the list of (result, aligned size) events, and the final chain. -/
def allocSeq (bs : List Block) : List Nat → List (AllocResult × Nat) × List Block
  | [] => ([], bs)
  | s :: ss =>
    (((arena_alloc bs s).1, arena_align_size s ARENA_ALIGNMENT)
        :: (allocSeq (arena_alloc bs s).2 ss).1,
     (allocSeq (arena_alloc bs s).2 ss).2)

/-- The successful allocations of a run, as (block index, offset, aligned
size) triples; the handed-out region of such an event is
[offset, offset + aligned size). -/
def okEvents : List (AllocResult × Nat) → List (Nat × Nat × Nat)
  | [] => []
  | (.ok i off, a) :: rest => (i, off, a) :: okEvents rest
  | (.nullPtr, _) :: rest => okEvents rest
  | (.divergeLoop, _) :: rest => okEvents rest

/-- Regularity of a chain for the non-overlap theorem: non-NULL, the head
block's capacity is at most 2^62 (so doubling it cannot wrap) and every
block satisfies used ≤ capacity ≤ 2^63 (so the fit comparison cannot
wrap for requests of at most 2^61 bytes). -/
def Good : List Block → Prop
  | [] => False
  | hd :: rest =>
      hd.capacity ≤ 2 ^ 62 ∧ ∀ b ∈ hd :: rest, b.used ≤ b.capacity ∧ b.capacity ≤ 2 ^ 63

example : arena_align_size 18 8 = 24 := by decide
example : arena_align_size 11 8 = 16 := by decide
example : arena_align_size 64 8 = 64 := by decide
example : arena_align_size 8 8 = 8 := by decide
example : (arena_alloc [arena_init 128] 100).2 = [⟨128, 104, some ()⟩] := by decide

/-! ## Basic lemmas about the embedded operations -/

theorem allocGo_nil (headCap size idx : Nat) :
    allocGo headCap size idx [] = (.divergeLoop, []) := rfl

theorem allocGo_cons_fit (headCap size idx : Nat) (b : Block) (rest : List Block)
    (h : (b.used + size) % SIZE_MOD ≤ b.capacity) :
    allocGo headCap size idx (b :: rest)
    = (.ok idx b.used, { b with used := (b.used + size) % SIZE_MOD } :: rest) := by
  rw [allocGo.eq_def]
  simp [h]

theorem allocGo_tail_nofit_fit (headCap size idx : Nat) (b : Block)
    (h : ¬ (b.used + size) % SIZE_MOD ≤ b.capacity)
    (h2 : ((newBlock headCap size).used + size) % SIZE_MOD ≤ (newBlock headCap size).capacity) :
    allocGo headCap size idx [b]
    = (.ok (idx + 1) (newBlock headCap size).used,
       [b, { newBlock headCap size with
              used := ((newBlock headCap size).used + size) % SIZE_MOD }]) := by
  rw [allocGo.eq_def]
  simp [h, h2]

theorem allocGo_tail_nofit_nofit (headCap size idx : Nat) (b : Block)
    (h : ¬ (b.used + size) % SIZE_MOD ≤ b.capacity)
    (h2 : ¬ ((newBlock headCap size).used + size) % SIZE_MOD ≤ (newBlock headCap size).capacity) :
    allocGo headCap size idx [b] = (.divergeLoop, [b, newBlock headCap size]) := by
  rw [allocGo.eq_def]
  simp [h, h2]

theorem allocGo_cons_nofit (headCap size idx : Nat) (b r : Block) (rs : List Block)
    (h : ¬ (b.used + size) % SIZE_MOD ≤ b.capacity) :
    allocGo headCap size idx (b :: r :: rs)
    = ((allocGo headCap size (idx + 1) (r :: rs)).1,
       b :: (allocGo headCap size (idx + 1) (r :: rs)).2) := by
  rw [allocGo.eq_def]
  simp [h]

theorem SIZE_MOD_pos : 0 < SIZE_MOD := by
  unfold SIZE_MOD
  positivity

theorem arena_align_size_lt_mod (s : Nat) : arena_align_size s 8 < SIZE_MOD := by
  unfold arena_align_size
  calc (s + 8 - 1) % SIZE_MOD / 8 * 8 ≤ (s + 8 - 1) % SIZE_MOD := Nat.div_mul_le_self _ _
    _ < SIZE_MOD := Nat.mod_lt _ SIZE_MOD_pos

theorem arena_align_size_dvd (s : Nat) : 8 ∣ arena_align_size s 8 := by
  unfold arena_align_size
  exact dvd_mul_left 8 _

theorem arena_align_size_of_no_wrap (s : Nat) (h : s + 7 < SIZE_MOD) :
    arena_align_size s 8 = (s + 7) / 8 * 8 := by
  unfold arena_align_size
  rw [show s + 8 - 1 = s + 7 from rfl, Nat.mod_eq_of_lt h]

theorem le_arena_align_size (s : Nat) (h : s + 7 < SIZE_MOD) :
    s ≤ arena_align_size s 8 := by
  rw [arena_align_size_of_no_wrap s h]
  have h2 := Nat.div_add_mod (s + 7) 8
  have h3 : (s + 7) % 8 < 8 := Nat.mod_lt _ (by norm_num)
  omega

theorem arena_align_size_le (s : Nat) (h : s + 7 < SIZE_MOD) :
    arena_align_size s 8 ≤ s + 7 := by
  rw [arena_align_size_of_no_wrap s h]
  exact Nat.div_mul_le_self _ _

theorem arena_align_size_pos (s : Nat) (hs : 0 < s) (h : s + 7 < SIZE_MOD) :
    8 ≤ arena_align_size s 8 := by
  have h1 := le_arena_align_size s h
  have h2 := arena_align_size_dvd s
  omega

/-! ## C2: first-fit walk from the head -/

theorem allocGo_first_fit (headCap size : Nat) :
    ∀ (bs : List Block) (idx i : Nat) (hi : i < bs.length),
    (∀ b ∈ bs, b.used + size < SIZE_MOD) →
    (bs.get ⟨i, hi⟩).used + size ≤ (bs.get ⟨i, hi⟩).capacity →
    (∀ j (hj : j < i),
      ¬ ((bs.get ⟨j, hj.trans hi⟩).used + size ≤ (bs.get ⟨j, hj.trans hi⟩).capacity)) →
    allocGo headCap size idx bs
      = (.ok (idx + i) (bs.get ⟨i, hi⟩).used,
         bs.set i { bs.get ⟨i, hi⟩ with used := (bs.get ⟨i, hi⟩).used + size })
  | [], idx, i, hi, _, _, _ => absurd hi (by simp)
  | b :: rest, idx, 0, hi, hwrap, hfit, _ => by
      have hb : b.used + size < SIZE_MOD := hwrap b (List.mem_cons_self _ _)
      have hmod : (b.used + size) % SIZE_MOD = b.used + size := Nat.mod_eq_of_lt hb
      have hfit2 : (b.used + size) % SIZE_MOD ≤ b.capacity := by
        rw [hmod]
        exact hfit
      rw [allocGo_cons_fit headCap size idx b rest hfit2, hmod]
      rfl
  | b :: rest, idx, i + 1, hi, hwrap, hfit, hfirst => by
      have hb : b.used + size < SIZE_MOD := hwrap b (List.mem_cons_self _ _)
      have hnb : ¬ (b.used + size ≤ b.capacity) := hfirst 0 (Nat.succ_pos i)
      have hnb2 : ¬ ((b.used + size) % SIZE_MOD ≤ b.capacity) := by
        rw [Nat.mod_eq_of_lt hb]
        exact hnb
      have hi' : i < rest.length := Nat.lt_of_succ_lt_succ hi
      cases rest with
      | nil => exact absurd hi' (by simp)
      | cons r rs =>
          rw [allocGo_cons_nofit headCap size idx b r rs hnb2,
              allocGo_first_fit headCap size (r :: rs) (idx + 1) i hi'
                (fun x hx => hwrap x (List.mem_cons_of_mem _ hx))
                hfit
                (fun j hj => hfirst (j + 1) (Nat.succ_lt_succ hj))]
          have harith : idx + 1 + i = idx + (i + 1) := by omega
          rw [harith]
          rfl

/-- C2: when some existing block has room, the allocation is satisfied by
the first block in head-to-tail order whose used + aligned_size ≤
capacity; the returned handle is (that block index, its used count before
the call), that block's used advances by the aligned size, and no other
block changes (the chain is the old chain with only entry i replaced). -/
theorem alloc_first_fit_spec (bs : List Block) (s : Nat) (hs : 0 < s)
    (i : Nat) (hi : i < bs.length)
    (hwrap : ∀ b ∈ bs, b.used + arena_align_size s 8 < SIZE_MOD)
    (hfit : (bs.get ⟨i, hi⟩).used + arena_align_size s 8 ≤ (bs.get ⟨i, hi⟩).capacity)
    (hfirst : ∀ j (hj : j < i),
      ¬ ((bs.get ⟨j, hj.trans hi⟩).used + arena_align_size s 8
          ≤ (bs.get ⟨j, hj.trans hi⟩).capacity)) :
    arena_alloc bs s
      = (.ok i (bs.get ⟨i, hi⟩).used,
         bs.set i { bs.get ⟨i, hi⟩ with
                     used := (bs.get ⟨i, hi⟩).used + arena_align_size s 8 }) := by
  cases bs with
  | nil => exact absurd hi (by simp)
  | cons hd rest =>
      have hs0 : s ≠ 0 := by omega
      simp only [arena_alloc, if_neg hs0]
      have h := allocGo_first_fit hd.capacity (arena_align_size s 8) (hd :: rest) 0 i hi
        hwrap hfit hfirst
      rw [show (ARENA_ALIGNMENT : Nat) = 8 from rfl, h, Nat.zero_add]

theorem alloc_first_fit_spec_inst :
    arena_alloc [⟨128, 104, some ()⟩, ⟨400, 200, some ()⟩] 50
      = (.ok 1 200, [⟨128, 104, some ()⟩, ⟨400, 256, some ()⟩]) := by
  have h := alloc_first_fit_spec [⟨128, 104, some ()⟩, ⟨400, 200, some ()⟩] 50
    (by decide) 1 (by decide) (by decide) (by decide) (by decide)
  simpa using h

/-! ## C1: capacity of a freshly appended block -/

theorem allocGo_nofit (headCap size : Nat) :
    ∀ (bs : List Block) (idx : Nat), bs ≠ [] →
    (∀ b ∈ bs, ¬ ((b.used + size) % SIZE_MOD ≤ b.capacity)) →
    ((newBlock headCap size).used + size) % SIZE_MOD ≤ (newBlock headCap size).capacity →
    allocGo headCap size idx bs
      = (.ok (idx + bs.length) (newBlock headCap size).used,
         bs ++ [{ newBlock headCap size with
                   used := ((newBlock headCap size).used + size) % SIZE_MOD }])
  | [], _, hne, _, _ => absurd rfl hne
  | b :: rest, idx, _, hnofit, hfit2 => by
      have hb := hnofit b (List.mem_cons_self _ _)
      cases rest with
      | nil =>
          rw [allocGo_tail_nofit_fit headCap size idx b hb hfit2]
          rfl
      | cons r rs =>
          rw [allocGo_cons_nofit headCap size idx b r rs hb,
              allocGo_nofit headCap size (r :: rs) (idx + 1) (by simp)
                (fun x hx => hnofit x (List.mem_cons_of_mem _ hx)) hfit2]
          have harith : idx + 1 + (r :: rs).length = idx + (b :: r :: rs).length := by
            simp only [List.length_cons]
            omega
          rw [harith]
          rfl

/-- C5 and C1 both need the closed form of the freshly created block. -/
theorem newBlock_eq (headCap size : Nat) (h0 : 0 < size)
    (hcap : max headCap size * 2 < SIZE_MOD) :
    newBlock headCap size = ⟨max headCap size * 2, 0, some ()⟩ := by
  have hform : (if headCap > size then headCap * 2 else size * 2) = max headCap size * 2 := by
    rcases Nat.lt_or_ge size headCap with h | h
    · rw [if_pos h, Nat.max_eq_left (Nat.le_of_lt h)]
    · rw [if_neg (by omega), Nat.max_eq_right h]
  have hne0 : max headCap size * 2 ≠ 0 := by
    have : size ≤ max headCap size := Nat.le_max_right _ _
    omega
  unfold newBlock arena_init
  rw [hform, Nat.mod_eq_of_lt hcap]
  simp [hne0]

/-- C1 (amended): when no existing block has room for the aligned size,
arena_alloc appends one block whose capacity is
max(HEAD block capacity, aligned size) * 2 — the growth formula reads the
head block's capacity, not the current tail's — that capacity is at least
the aligned size, and the allocation immediately succeeds in the new
block at offset 0. -/
theorem alloc_growth_spec (hd : Block) (rest : List Block) (s : Nat)
    (hs : 0 < s) (hsw : s + 7 < SIZE_MOD)
    (hnofit : ∀ b ∈ hd :: rest, ¬ ((b.used + arena_align_size s 8) % SIZE_MOD ≤ b.capacity))
    (hcap : max hd.capacity (arena_align_size s 8) * 2 < SIZE_MOD) :
    arena_alloc (hd :: rest) s
      = (.ok (hd :: rest).length 0,
         (hd :: rest) ++ [{ capacity := max hd.capacity (arena_align_size s 8) * 2,
                            used := arena_align_size s 8,
                            data := some () }])
    ∧ arena_align_size s 8 ≤ max hd.capacity (arena_align_size s 8) * 2 := by
  have hs0 : s ≠ 0 := by omega
  have ha8 : 8 ≤ arena_align_size s 8 := arena_align_size_pos s hs hsw
  have haltm : arena_align_size s 8 < SIZE_MOD := arena_align_size_lt_mod s
  have hle : arena_align_size s 8 ≤ max hd.capacity (arena_align_size s 8) * 2 := by
    have := Nat.le_max_right hd.capacity (arena_align_size s 8)
    omega
  have hnb := newBlock_eq hd.capacity (arena_align_size s 8) (by omega) hcap
  have hfit2 : ((newBlock hd.capacity (arena_align_size s 8)).used + arena_align_size s 8)
      % SIZE_MOD ≤ (newBlock hd.capacity (arena_align_size s 8)).capacity := by
    rw [hnb]
    show (0 + arena_align_size s 8) % SIZE_MOD ≤ _
    rw [Nat.zero_add, Nat.mod_eq_of_lt haltm]
    exact hle
  refine ⟨?_, hle⟩
  simp only [arena_alloc, if_neg hs0]
  rw [show (ARENA_ALIGNMENT : Nat) = 8 from rfl,
      allocGo_nofit hd.capacity (arena_align_size s 8) (hd :: rest) 0 (by simp) hnofit hfit2,
      Nat.zero_add, hnb]
  show _ = (AllocResult.ok (hd :: rest).length 0, _)
  rw [show ((0 : Nat) + arena_align_size s 8) % SIZE_MOD = arena_align_size s 8 by
        rw [Nat.zero_add]
        exact Nat.mod_eq_of_lt haltm]

theorem alloc_growth_spec_inst :
    arena_alloc [⟨128, 104, some ()⟩] 200
      = (.ok 1 0, [⟨128, 104, some ()⟩, ⟨400, 200, some ()⟩])
    ∧ arena_align_size 200 8 ≤ max 128 (arena_align_size 200 8) * 2 := by
  have h := alloc_growth_spec ⟨128, 104, some ()⟩ [] 200
    (by decide) (by decide) (by decide) (by decide)
  simpa using h

/-- C1 (counterexample to the claim as stated): starting from
arena_init 128, an allocation of 200 creates a tail block of capacity 400;
a further allocation of 300 (aligned size 304) fits in no existing block
and creates a block of capacity 608 = max(128, 304) * 2, not
max(400, 304) * 2 = 800, and 608 < 2 * max(400, 304): the growth formula
reads the head block's capacity, not the current tail's. -/
theorem growth_head_capacity_cex :
    (arena_alloc [arena_init 128] 200).2
      = [⟨128, 0, some ()⟩, ⟨400, 200, some ()⟩]
    ∧ (arena_alloc [⟨128, 0, some ()⟩, ⟨400, 200, some ()⟩] 300).2
      = [⟨128, 0, some ()⟩, ⟨400, 200, some ()⟩, ⟨608, 304, some ()⟩]
    ∧ arena_align_size 300 8 = 304
    ∧ ¬ (608 = max 400 304 * 2)
    ∧ ¬ (2 * max 400 304 ≤ 608) := by decide

/-! ## C7: reset zeroes every used counter and changes nothing else -/

theorem arena_total_used_eq_zero (bs : List Block) (h : ∀ b ∈ bs, b.used = 0) :
    arena_total_used bs = 0 := by
  unfold arena_total_used
  induction bs with
  | nil => rfl
  | cons b rest ih =>
      have hb : b.used = 0 := h b (List.mem_cons_self _ _)
      have hr : ∀ b ∈ rest, b.used = 0 := fun x hx => h x (List.mem_cons_of_mem _ hx)
      simpa [hb, Nat.mod_self, Nat.zero_mod] using ih hr

/-- C7: reset sets used = 0 on every block, preserving each block's
capacity and memory handle and the shape of the chain; afterwards
total_used is 0 while total_capacity is unchanged. -/
theorem arena_reset_spec (bs : List Block) :
    (arena_reset bs).length = bs.length
    ∧ (∀ i, (arena_reset bs).get? i
        = (bs.get? i).map fun b => { capacity := b.capacity, used := 0, data := b.data })
    ∧ arena_total_used (arena_reset bs) = 0
    ∧ arena_total_capacity (arena_reset bs) = arena_total_capacity bs := by
  refine ⟨List.length_map _ _, fun i => ?_, ?_, ?_⟩
  · simp [arena_reset, List.get?_eq_getElem?, List.getElem?_map]
  · exact arena_total_used_eq_zero _ (by simp [arena_reset])
  · unfold arena_total_capacity arena_reset
    rw [List.foldl_map]

/-! ## C8: free clears the head block and zeroes both totals -/

/-- C8: after free (on a non-NULL arena) the chain is reduced to the head
block with capacity 0, used 0, a NULL memory handle and no successor, so
total_capacity and total_used are both 0. -/
theorem arena_free_spec (bs : List Block) (h : bs ≠ []) :
    arena_free bs = [{ capacity := 0, used := 0, data := none }]
    ∧ arena_total_capacity (arena_free bs) = 0
    ∧ arena_total_used (arena_free bs) = 0 := by
  match bs, h with
  | b :: rest, _ =>
      refine ⟨rfl, ?_, ?_⟩ <;> simp [arena_free, arena_total_capacity, arena_total_used]

theorem arena_free_spec_inst :
    arena_free [arena_init 128] = [{ capacity := 0, used := 0, data := none }]
    ∧ arena_total_capacity (arena_free [arena_init 128]) = 0
    ∧ arena_total_used (arena_free [arena_init 128]) = 0 :=
  arena_free_spec [arena_init 128] (by decide)

/-! ## C9: zero-size requests are no-ops returning NULL -/

/-! ## C10: size arithmetic modulo 2^64 -/

theorem arena_align_size_wrap (s : Nat) (h1 : SIZE_MOD - 8 < s) (h2 : s < SIZE_MOD) :
    arena_align_size s 8 = 0 := by
  have hW : SIZE_MOD = 18446744073709551616 := by norm_num [SIZE_MOD]
  unfold arena_align_size
  rw [hW] at h1 h2 ⊢
  omega

/-- C10: in `size_t` arithmetic, for 1 ≤ s ≤ 2^64 - 8 the aligned size is
the least multiple of 8 that is ≥ s; for 2^64 - 8 < s < 2^64 the
computation `(s + 7) & ~7` wraps to 0, in which case arena_alloc returns a
non-absent handle into the head block while advancing its used count by 0
bytes (the chain is unchanged). -/
theorem size_arith_spec :
    (∀ s, 1 ≤ s → s ≤ SIZE_MOD - 8 →
       8 ∣ arena_align_size s 8 ∧ s ≤ arena_align_size s 8
       ∧ ∀ m, 8 ∣ m → s ≤ m → arena_align_size s 8 ≤ m)
    ∧ (∀ s, SIZE_MOD - 8 < s → s < SIZE_MOD → arena_align_size s 8 = 0)
    ∧ (∀ (hd : Block) (rest : List Block) (s : Nat),
        SIZE_MOD - 8 < s → s < SIZE_MOD →
        hd.used ≤ hd.capacity → hd.used < SIZE_MOD →
        arena_alloc (hd :: rest) s = (.ok 0 hd.used, hd :: rest)) := by
  have hW : SIZE_MOD = 18446744073709551616 := by norm_num [SIZE_MOD]
  refine ⟨fun s hs1 hs2 => ?_, arena_align_size_wrap, fun hd rest s h1 h2 hle hlt => ?_⟩
  · have hlt : s + 7 < SIZE_MOD := by omega
    refine ⟨arena_align_size_dvd s, le_arena_align_size s hlt, fun m hm hsm => ?_⟩
    rw [arena_align_size_of_no_wrap s hlt]
    omega
  · have hs0 : s ≠ 0 := by omega
    have ha : arena_align_size s 8 = 0 := arena_align_size_wrap s h1 h2
    have hu : (hd.used + 0) % SIZE_MOD = hd.used := by
      rw [Nat.add_zero, Nat.mod_eq_of_lt hlt]
    simp only [arena_alloc, ARENA_ALIGNMENT, if_neg hs0, ha]
    rw [allocGo.eq_def]
    simp only [hu, if_pos hle]

theorem size_arith_spec_inst :
    (13 ≤ arena_align_size 13 8 ∧ arena_align_size 13 8 ≤ 16)
    ∧ arena_align_size (2 ^ 64 - 1) 8 = 0
    ∧ arena_alloc [⟨128, 0, some ()⟩] (2 ^ 64 - 1)
        = (.ok 0 0, [⟨128, 0, some ()⟩]) := by
  obtain ⟨p1, p2, p3⟩ := size_arith_spec
  refine ⟨⟨(p1 13 (by decide) (by decide)).2.1,
          (p1 13 (by decide) (by decide)).2.2 16 (by decide) (by decide)⟩,
          p2 (2 ^ 64 - 1) (by decide) (by decide),
          p3 ⟨128, 0, some ()⟩ [] (2 ^ 64 - 1) (by decide) (by decide)
            (by decide) (by decide)⟩

/-! ## C6: used ≤ capacity for every block after every operation -/

theorem newBlock_used (headCap size : Nat) : (newBlock headCap size).used = 0 := rfl

theorem allocGo_used_le_cap (headCap size : Nat) :
    ∀ (bs : List Block) (idx : Nat), UsedLeCap bs → UsedLeCap (allocGo headCap size idx bs).2
  | [], _, _ => by
      intro x hx
      simp [allocGo] at hx
  | b :: rest, idx, h => by
      have hr : UsedLeCap rest := fun x hx => h x (List.mem_cons_of_mem _ hx)
      by_cases hfit : (b.used + size) % SIZE_MOD ≤ b.capacity
      · rw [allocGo_cons_fit headCap size idx b rest hfit]
        intro x hx
        rcases List.mem_cons.mp hx with hx | hx
        · rw [hx]
          exact hfit
        · exact hr x hx
      · cases rest with
        | nil =>
            by_cases hfit2 : ((newBlock headCap size).used + size) % SIZE_MOD
                ≤ (newBlock headCap size).capacity
            · rw [allocGo_tail_nofit_fit headCap size idx b hfit hfit2]
              intro x hx
              rcases List.mem_cons.mp hx with hx | hx
              · rw [hx]
                exact h b (List.mem_cons_self _ _)
              · rcases List.mem_singleton.mp hx with hx
                rw [hx]
                exact hfit2
            · rw [allocGo_tail_nofit_nofit headCap size idx b hfit hfit2]
              intro x hx
              rcases List.mem_cons.mp hx with hx | hx
              · rw [hx]
                exact h b (List.mem_cons_self _ _)
              · rcases List.mem_singleton.mp hx with hx
                rw [hx, newBlock_used]
                exact Nat.zero_le _
        | cons r rs =>
            rw [allocGo_cons_nofit headCap size idx b r rs hfit]
            intro x hx
            rcases List.mem_cons.mp hx with hx | hx
            · rw [hx]
              exact h b (List.mem_cons_self _ _)
            · exact allocGo_used_le_cap headCap size (r :: rs) (idx + 1) hr x hx

theorem arena_alloc_used_le_cap (bs : List Block) (s : Nat) (h : UsedLeCap bs) :
    UsedLeCap (arena_alloc bs s).2 := by
  cases bs with
  | nil => exact h
  | cons b rest =>
      by_cases hs : s = 0
      · simpa [arena_alloc, hs] using h
      · simp only [arena_alloc, if_neg hs]
        exact allocGo_used_le_cap _ _ _ _ h

/-- The block list coming out of arena_realloc is either the input list or
the list produced by the inner arena_alloc call. -/
theorem arena_realloc_blocks (bs : List Block) (m : Nat → Nat → Nat)
    (old : Option (Nat × Nat)) (os ns : Nat) :
    (arena_realloc bs m old os ns).2.1 = bs
    ∨ (arena_realloc bs m old os ns).2.1 = (arena_alloc bs ns).2 := by
  cases bs with
  | nil => exact Or.inl rfl
  | cons b rest =>
      by_cases h : ns = 0
      · left
        simp [arena_realloc, h]
      · cases old with
        | none =>
            right
            unfold arena_realloc
            simp [h]
        | some p =>
            obtain ⟨ob, oOff⟩ := p
            by_cases h2 : ns ≤ os
            · left
              simp [arena_realloc, h, h2]
            · right
              simp only [arena_realloc, if_neg h, if_neg h2]
              rcases hres : (arena_alloc (b :: rest) ns).1 with _ | ⟨i, off⟩ | _ <;>
                simp [hres]

/-- C6: the invariant used ≤ capacity (for every block of the chain) holds
after init and is preserved by arena_alloc, arena_realloc, arena_reset and
arena_free. -/
theorem used_le_capacity_invariant_spec :
    (∀ c, UsedLeCap [arena_init c])
    ∧ (∀ bs s, UsedLeCap bs → UsedLeCap (arena_alloc bs s).2)
    ∧ (∀ bs m old os ns, UsedLeCap bs → UsedLeCap (arena_realloc bs m old os ns).2.1)
    ∧ (∀ bs, UsedLeCap (arena_reset bs))
    ∧ (∀ bs, UsedLeCap (arena_free bs)) := by
  refine ⟨?_, arena_alloc_used_le_cap, ?_, ?_, ?_⟩
  · intro c x hx
    rcases List.mem_singleton.mp hx with hx
    rw [hx]
    exact Nat.zero_le _
  · intro bs m old os ns h
    rcases arena_realloc_blocks bs m old os ns with heq | heq <;> rw [heq]
    · exact h
    · exact arena_alloc_used_le_cap bs ns h
  · intro bs x hx
    simp only [arena_reset, List.mem_map] at hx
    obtain ⟨b, _, hb⟩ := hx
    rw [← hb]
    exact Nat.zero_le _
  · intro bs x hx
    cases bs with
    | nil => simp [arena_free] at hx
    | cons b rest =>
        simp only [arena_free, List.mem_singleton] at hx
        rw [hx]

theorem used_le_capacity_invariant_spec_inst :
    UsedLeCap (arena_alloc [arena_init 128] 100).2
    ∧ UsedLeCap (arena_reset [arena_init 64]) :=
  ⟨used_le_capacity_invariant_spec.2.1 [arena_init 128] 100
    (used_le_capacity_invariant_spec.1 128),
   used_le_capacity_invariant_spec.2.2.2.1 [arena_init 64]⟩

/-- C9: arena_alloc with size 0 and arena_realloc with new_size 0 both
return NULL (absent) and leave the chain — every block's used and
capacity — and the byte store completely unchanged. -/
theorem zero_size_noop_spec (bs : List Block) (m : Nat → Nat → Nat)
    (old : Option (Nat × Nat)) (old_size : Nat) :
    arena_alloc bs 0 = (.nullPtr, bs)
    ∧ arena_realloc bs m old old_size 0 = (.nullPtr, bs, m) := by
  cases bs with
  | nil => exact ⟨rfl, rfl⟩
  | cons b rest => exact ⟨by simp [arena_alloc], by simp [arena_realloc]⟩

/-! ## C4: returned offsets are 8-aligned -/

theorem dvd_mod_size_mod {a : Nat} (h : 8 ∣ a) : 8 ∣ a % SIZE_MOD :=
  (Nat.dvd_mod_iff (by norm_num [SIZE_MOD])).mpr h

theorem allocGo_aligned (headCap size : Nat) (hsz : 8 ∣ size) :
    ∀ (bs : List Block) (idx : Nat), AlignedUsed bs →
    AlignedUsed (allocGo headCap size idx bs).2
    ∧ (∀ i off, (allocGo headCap size idx bs).1 = .ok i off → 8 ∣ off)
  | [], idx, _ => by
      rw [allocGo_nil]
      exact ⟨fun x hx => absurd hx (List.not_mem_nil x), fun i off h => by cases h⟩
  | b :: rest, idx, h => by
      have hb : 8 ∣ b.used := h b (List.mem_cons_self _ _)
      have hr : AlignedUsed rest := fun x hx => h x (List.mem_cons_of_mem _ hx)
      by_cases hfit : (b.used + size) % SIZE_MOD ≤ b.capacity
      · rw [allocGo_cons_fit headCap size idx b rest hfit]
        refine ⟨fun x hx => ?_, fun i off hok => ?_⟩
        · rcases List.mem_cons.mp hx with hx | hx
          · rw [hx]
            exact dvd_mod_size_mod (Nat.dvd_add hb hsz)
          · exact hr x hx
        · cases hok
          exact hb
      · cases rest with
        | nil =>
            by_cases hfit2 : ((newBlock headCap size).used + size) % SIZE_MOD
                ≤ (newBlock headCap size).capacity
            · rw [allocGo_tail_nofit_fit headCap size idx b hfit hfit2]
              refine ⟨fun x hx => ?_, fun i off hok => ?_⟩
              · rcases List.mem_cons.mp hx with hx | hx
                · rw [hx]
                  exact hb
                · rcases List.mem_singleton.mp hx with hx
                  rw [hx, newBlock_used]
                  exact dvd_mod_size_mod (by simpa using hsz)
              · cases hok
                rw [newBlock_used]
                exact dvd_zero 8
            · rw [allocGo_tail_nofit_nofit headCap size idx b hfit hfit2]
              refine ⟨fun x hx => ?_, fun i off hok => by cases hok⟩
              rcases List.mem_cons.mp hx with hx | hx
              · rw [hx]
                exact hb
              · rcases List.mem_singleton.mp hx with hx
                rw [hx, newBlock_used]
                exact dvd_zero 8
        | cons r rs =>
            rw [allocGo_cons_nofit headCap size idx b r rs hfit]
            have ih := allocGo_aligned headCap size hsz (r :: rs) (idx + 1) hr
            refine ⟨fun x hx => ?_, fun i off hok => ih.2 i off hok⟩
            rcases List.mem_cons.mp hx with hx | hx
            · rw [hx]
              exact hb
            · exact ih.1 x hx

theorem arena_alloc_aligned (bs : List Block) (s : Nat) (h : AlignedUsed bs) :
    AlignedUsed (arena_alloc bs s).2
    ∧ (∀ i off, (arena_alloc bs s).1 = .ok i off → 8 ∣ off) := by
  cases bs with
  | nil => exact ⟨h, fun i off hok => by cases hok⟩
  | cons hd rest =>
      by_cases hs : s = 0
      · simp only [arena_alloc, if_pos hs]
        exact ⟨h, fun i off hok => by cases hok⟩
      · simp only [arena_alloc, if_neg hs]
        exact allocGo_aligned hd.capacity (arena_align_size s ARENA_ALIGNMENT)
          (arena_align_size_dvd s) (hd :: rest) 0 h

/-- C4: the requested size is rounded up to a multiple of 8, every block
starts with used = 0, this 8-divisibility of used is preserved by every
operation, and hence the offset of every handle arena_alloc returns is a
multiple of the configured alignment 8. -/
theorem alloc_alignment_spec :
    (∀ s, 8 ∣ arena_align_size s 8)
    ∧ (∀ c, AlignedUsed [arena_init c])
    ∧ (∀ bs s, AlignedUsed bs → AlignedUsed (arena_alloc bs s).2)
    ∧ (∀ bs m old os ns, AlignedUsed bs → AlignedUsed (arena_realloc bs m old os ns).2.1)
    ∧ (∀ bs, AlignedUsed (arena_reset bs))
    ∧ (∀ bs, AlignedUsed (arena_free bs))
    ∧ (∀ bs s i off, AlignedUsed bs → (arena_alloc bs s).1 = .ok i off → 8 ∣ off) := by
  refine ⟨arena_align_size_dvd, ?_, fun bs s h => (arena_alloc_aligned bs s h).1,
    ?_, ?_, ?_, fun bs s i off h hok => (arena_alloc_aligned bs s h).2 i off hok⟩
  · intro c x hx
    rcases List.mem_singleton.mp hx with hx
    rw [hx]
    exact dvd_zero 8
  · intro bs m old os ns h
    rcases arena_realloc_blocks bs m old os ns with heq | heq <;> rw [heq]
    · exact h
    · exact (arena_alloc_aligned bs ns h).1
  · intro bs x hx
    simp only [arena_reset, List.mem_map] at hx
    obtain ⟨b, _, hb⟩ := hx
    rw [← hb]
    exact dvd_zero 8
  · intro bs x hx
    cases bs with
    | nil => simp [arena_free] at hx
    | cons b rest =>
        simp only [arena_free, List.mem_singleton] at hx
        rw [hx]
        exact dvd_zero 8

theorem alloc_alignment_spec_inst :
    8 ∣ arena_align_size 18 8
    ∧ AlignedUsed (arena_alloc [arena_init 128] 18).2
    ∧ 8 ∣ (24 : Nat) :=
  ⟨alloc_alignment_spec.1 18,
   alloc_alignment_spec.2.2.1 [arena_init 128] 18 (alloc_alignment_spec.2.1 128),
   alloc_alignment_spec.2.2.2.2.2.2 (arena_alloc [arena_init 128] 18).2 11 0 24
     (alloc_alignment_spec.2.2.1 [arena_init 128] 18 (alloc_alignment_spec.2.1 128))
     (by decide)⟩

/-! ## C3: realloc (grow) semantics -/

/-- C3 (counterexample to the claim as stated): with old_handle present
and old_size = 8, calling grow with new_size = 0 satisfies new_size ≤
old_size, yet arena_realloc returns NULL, not the old handle. -/
theorem realloc_zero_new_size_cex :
    (arena_realloc [⟨128, 8, some ()⟩] (fun _ _ => 0) (some (0, 0)) 8 0).1 = .nullPtr
    ∧ (0 : Nat) ≤ 8
    ∧ AllocResult.nullPtr ≠ AllocResult.ok 0 0 := by
  refine ⟨rfl, by decide, by decide⟩

/-- C3 (amended): arena_realloc with an absent old handle behaves exactly
as arena_alloc(new_size) (same result, same chain, untouched bytes); with
old present and 1 ≤ new_size ≤ old_size it returns the old handle and
changes nothing (new_size = 0 instead returns absent); with
old_size < new_size it performs the arena_alloc of new_size and, when that
yields a handle, copies exactly old_size bytes from the old region onto
the new one — bytes outside the destination range are untouched. -/
theorem arena_realloc_spec :
    (∀ bs m os ns,
        (arena_realloc bs m none os ns).1 = (arena_alloc bs ns).1
        ∧ (arena_realloc bs m none os ns).2.1 = (arena_alloc bs ns).2
        ∧ (arena_realloc bs m none os ns).2.2 = m)
    ∧ (∀ bs m ob oOff os ns, bs ≠ [] → 0 < ns → ns ≤ os →
        arena_realloc bs m (some (ob, oOff)) os ns = (.ok ob oOff, bs, m))
    ∧ (∀ bs m ob oOff os ns i off bs2, os < ns →
        arena_alloc bs ns = (.ok i off, bs2) →
        arena_realloc bs m (some (ob, oOff)) os ns
          = (.ok i off, bs2, memCopy m ob oOff i off os))
    ∧ (∀ m ob oOff i off os o, o < os →
        memCopy m ob oOff i off os i (off + o) = m ob (oOff + o))
    ∧ (∀ m ob oOff i off os bIdx o,
        bIdx ≠ i ∨ o < off ∨ off + os ≤ o →
        memCopy m ob oOff i off os bIdx o = m bIdx o) := by
  refine ⟨?_, ?_, ?_, ?_, ?_⟩
  · intro bs m os ns
    cases bs with
    | nil => exact ⟨rfl, rfl, rfl⟩
    | cons b rest =>
        by_cases hns : ns = 0
        · subst hns
          exact ⟨rfl, rfl, rfl⟩
        · unfold arena_realloc
          simp [hns]
  · intro bs m ob oOff os ns hne hpos hle
    cases bs with
    | nil => exact absurd rfl hne
    | cons b rest =>
        have hns : ns ≠ 0 := by omega
        unfold arena_realloc
        simp [hns, hle]
  · intro bs m ob oOff os ns i off bs2 hlt halloc
    cases bs with
    | nil =>
        rw [show arena_alloc [] ns = (.nullPtr, []) from rfl] at halloc
        cases halloc
    | cons b rest =>
        have hns : ns ≠ 0 := by
          intro hz
          rw [hz, (zero_size_noop_spec (b :: rest) m (some (ob, oOff)) os).1] at halloc
          cases halloc
        have hnle : ¬ ns ≤ os := by omega
        unfold arena_realloc
        simp [hns, hnle, halloc]
  · intro m ob oOff i off os o ho
    unfold memCopy
    rw [if_pos ⟨rfl, Nat.le_add_right _ _, by omega⟩]
    congr 1
    omega
  · intro m ob oOff i off os bIdx o hside
    unfold memCopy
    rw [if_neg]
    rintro ⟨h1, h2, h3⟩
    rcases hside with h | h | h
    · exact h h1
    · omega
    · omega

theorem arena_realloc_spec_inst :
    arena_realloc [⟨128, 16, some ()⟩] (fun b o => b + o) (some (0, 0)) 16 8
      = (.ok 0 0, [⟨128, 16, some ()⟩], fun b o => b + o)
    ∧ arena_realloc [⟨128, 16, some ()⟩] (fun b o => b + o) (some (0, 0)) 8 24
      = (.ok 0 16, [⟨128, 40, some ()⟩], memCopy (fun b o => b + o) 0 0 0 16 8)
    ∧ memCopy (fun b o => b + o) 0 0 0 16 8 0 19 = 3 := by
  obtain ⟨p1, p2, p3, p4, p5⟩ := arena_realloc_spec
  refine ⟨p2 [⟨128, 16, some ()⟩] (fun b o => b + o) 0 0 16 8 (by decide) (by decide) (by decide),
    p3 [⟨128, 16, some ()⟩] (fun b o => b + o) 0 0 8 24 0 16 [⟨128, 40, some ()⟩]
      (by decide) (by decide), ?_⟩
  exact p4 (fun b o => b + o) 0 0 0 16 8 3 (by decide)

/-! ## C5: regions handed out from one block never overlap -/

theorem allocSeq_nil (bs : List Block) : allocSeq bs [] = ([], bs) := rfl

theorem allocSeq_cons (bs : List Block) (s : Nat) (ss : List Nat) :
    allocSeq bs (s :: ss)
      = (((arena_alloc bs s).1, arena_align_size s ARENA_ALIGNMENT)
            :: (allocSeq (arena_alloc bs s).2 ss).1,
         (allocSeq (arena_alloc bs s).2 ss).2) := rfl

theorem okEvents_nil : okEvents [] = [] := rfl

theorem okEvents_cons_ok (i off a : Nat) (rest : List (AllocResult × Nat)) :
    okEvents ((.ok i off, a) :: rest) = (i, off, a) :: okEvents rest := rfl

theorem good_iff (bs : List Block) :
    Good bs ↔ (∃ hd, bs.get? 0 = some hd ∧ hd.capacity ≤ 2 ^ 62)
      ∧ ∀ b ∈ bs, b.used ≤ b.capacity ∧ b.capacity ≤ 2 ^ 63 := by
  cases bs with
  | nil => simp [Good]
  | cons hd rest => simp [Good]

theorem good_set_used (bs : List Block) (i : Nat) (hi : i < bs.length) (u : Nat)
    (hu : u ≤ (bs.get ⟨i, hi⟩).capacity) (hg : Good bs) :
    Good (bs.set i { bs.get ⟨i, hi⟩ with used := u }) := by
  have hcap63 : ∀ b ∈ bs, b.used ≤ b.capacity ∧ b.capacity ≤ 2 ^ 63 := ((good_iff bs).mp hg).2
  have hmem : ∀ b ∈ bs.set i { bs.get ⟨i, hi⟩ with used := u },
      b.used ≤ b.capacity ∧ b.capacity ≤ 2 ^ 63 := by
    intro b hb
    rcases List.mem_or_eq_of_mem_set hb with hb | hb
    · exact hcap63 b hb
    · rw [hb]
      exact ⟨hu, (hcap63 _ (List.get_mem _ _ _)).2⟩
  cases bs with
  | nil => exact hg.elim
  | cons hd rest =>
      obtain ⟨h1, _⟩ := hg
      cases i with
      | zero => exact ⟨h1, hmem⟩
      | succ n => exact ⟨h1, hmem⟩

theorem good_append_one (bs : List Block) (nb : Block) (hg : Good bs)
    (h1 : nb.used ≤ nb.capacity) (h2 : nb.capacity ≤ 2 ^ 63) :
    Good (bs ++ [nb]) := by
  cases bs with
  | nil => exact hg.elim
  | cons hd rest =>
      obtain ⟨hh, hall⟩ := hg
      refine ⟨hh, ?_⟩
      intro b hb
      have hb2 : b ∈ (hd :: rest) ++ [nb] := hb
      rcases List.mem_append.mp hb2 with hb3 | hb3
      · exact hall b hb3
      · rcases List.mem_singleton.mp hb3 with hb3
        rw [hb3]
        exact ⟨h1, h2⟩

/-- One arena_alloc call from a Good chain with a request in (0, 2^61]
succeeds, keeps the chain Good, can only lengthen the chain, leaves every
block other than the satisfying one untouched, sets the satisfying block's
used to offset + aligned size (which fits its capacity), and hands out
the old used count of the satisfying block as the offset. -/
theorem alloc_step_spec (bs : List Block) (s : Nat) (hg : Good bs)
    (hs : 0 < s) (hs2 : s ≤ 2 ^ 61) :
    ∃ i off bs2,
      arena_alloc bs s = (.ok i off, bs2)
      ∧ Good bs2
      ∧ bs.length ≤ bs2.length
      ∧ (∀ j, j ≠ i → j < bs.length → bs2.get? j = bs.get? j)
      ∧ (∃ bi, bs2.get? i = some bi
            ∧ bi.used = off + arena_align_size s 8
            ∧ off + arena_align_size s 8 ≤ bi.capacity)
      ∧ (∀ b0, bs.get? i = some b0 → off = b0.used) := by
  have hW : SIZE_MOD = 18446744073709551616 := by norm_num [SIZE_MOD]
  have h61 : (2 : Nat) ^ 61 = 2305843009213693952 := by norm_num
  have h62 : (2 : Nat) ^ 62 = 4611686018427387904 := by norm_num
  have h63 : (2 : Nat) ^ 63 = 9223372036854775808 := by norm_num
  have hsw : s + 7 < SIZE_MOD := by omega
  have ha_le : arena_align_size s 8 ≤ s + 7 := arena_align_size_le s hsw
  have ha8 : 8 ≤ arena_align_size s 8 := arena_align_size_pos s hs hsw
  cases bs with
  | nil => exact hg.elim
  | cons hd rest =>
  obtain ⟨hgcap, hgall⟩ := hg
  have hwrap : ∀ b ∈ hd :: rest, b.used + arena_align_size s 8 < SIZE_MOD := by
    intro b hb
    have := hgall b hb
    omega
  by_cases hex : ∃ j, ∃ hj : j < (hd :: rest).length,
      ((hd :: rest).get ⟨j, hj⟩).used + arena_align_size s 8
        ≤ ((hd :: rest).get ⟨j, hj⟩).capacity
  · classical
    refine ⟨Nat.find hex, ((hd :: rest).get ⟨Nat.find hex, (Nat.find_spec hex).1⟩).used,
      (hd :: rest).set (Nat.find hex)
        { (hd :: rest).get ⟨Nat.find hex, (Nat.find_spec hex).1⟩ with
           used := ((hd :: rest).get ⟨Nat.find hex, (Nat.find_spec hex).1⟩).used
              + arena_align_size s 8 }, ?_, ?_, ?_, ?_, ?_, ?_⟩
    · obtain ⟨hi, hfit⟩ := Nat.find_spec hex
      exact alloc_first_fit_spec (hd :: rest) s hs (Nat.find hex) hi hwrap hfit
        (fun j hj hfitj => Nat.find_min hex hj ⟨hj.trans hi, hfitj⟩)
    · obtain ⟨hi, hfit⟩ := Nat.find_spec hex
      exact good_set_used (hd :: rest) (Nat.find hex) hi _ hfit ⟨hgcap, hgall⟩
    · rw [List.length_set]
    · intro j hj hlt
      exact List.get?_set_ne _ _ (Ne.symm hj)
    · obtain ⟨hi, hfit⟩ := Nat.find_spec hex
      refine ⟨_, List.get?_set_eq_of_lt _ hi, rfl, hfit⟩
    · intro b0 hb0
      obtain ⟨hi, _⟩ := Nat.find_spec hex
      rw [List.get?_eq_get hi] at hb0
      rw [(Option.some_inj.mp hb0)]
  · push_neg at hex
    have hnofit : ∀ b ∈ hd :: rest,
        ¬ ((b.used + arena_align_size s 8) % SIZE_MOD ≤ b.capacity) := by
      intro b hb
      obtain ⟨n, hn⟩ := List.mem_iff_get.mp hb
      rw [Nat.mod_eq_of_lt (hwrap b hb)]
      have := hex n.1 n.2
      rw [hn] at this
      omega
    have hcap : max hd.capacity (arena_align_size s 8) * 2 < SIZE_MOD := by
      rcases Nat.le_total hd.capacity (arena_align_size s 8) with h | h
      · rw [Nat.max_eq_right h]
        omega
      · rw [Nat.max_eq_left h]
        omega
    obtain ⟨heq, hle⟩ := alloc_growth_spec hd rest s hs hsw hnofit hcap
    refine ⟨(hd :: rest).length, 0,
      (hd :: rest) ++ [{ capacity := max hd.capacity (arena_align_size s 8) * 2,
                         used := arena_align_size s 8, data := some () }],
      heq, ?_, ?_, ?_, ?_, ?_⟩
    · refine good_append_one (hd :: rest) _ ⟨hgcap, hgall⟩ hle ?_
      show max hd.capacity (arena_align_size s 8) * 2 ≤ 2 ^ 63
      rcases Nat.le_total hd.capacity (arena_align_size s 8) with h | h
      · rw [Nat.max_eq_right h]
        omega
      · rw [Nat.max_eq_left h]
        omega
    · rw [List.length_append]
      omega
    · intro j hj hlt
      exact List.get?_append hlt
    · refine ⟨{ capacity := max hd.capacity (arena_align_size s 8) * 2,
                used := arena_align_size s 8, data := some () }, ?_, ?_, ?_⟩
      · show ((hd :: rest) ++ [_]).get? (hd :: rest).length = _
        simp
      · rw [Nat.zero_add]
      · rw [Nat.zero_add]
        exact hle
    · intro b0 hb0
      rw [List.get?_len_le (le_refl _)] at hb0
      cases hb0

/-- Trace invariant for a run of allocations: the final chain is Good and
no shorter, every initial block's used count only grows, every successful
event's region lies below its block's final used count (hence inside the
capacity), every event's offset is at least the used count its block
started the run with, and earlier events end before later events of the
same block begin. -/
theorem allocSeq_spec :
    ∀ (sizes : List Nat) (bs : List Block), Good bs →
    (∀ s ∈ sizes, 0 < s ∧ s ≤ 2 ^ 61) →
    Good (allocSeq bs sizes).2
    ∧ bs.length ≤ (allocSeq bs sizes).2.length
    ∧ (∀ j, j < bs.length → ∃ b b2, bs.get? j = some b
        ∧ (allocSeq bs sizes).2.get? j = some b2 ∧ b.used ≤ b2.used)
    ∧ (∀ e ∈ okEvents (allocSeq bs sizes).1,
        ∃ b2, (allocSeq bs sizes).2.get? e.1 = some b2
        ∧ e.2.1 + e.2.2 ≤ b2.used ∧ b2.used ≤ b2.capacity)
    ∧ (∀ e ∈ okEvents (allocSeq bs sizes).1,
        ∀ b0, bs.get? e.1 = some b0 → b0.used ≤ e.2.1)
    ∧ List.Pairwise (fun e f => e.1 = f.1 → e.2.1 + e.2.2 ≤ f.2.1)
        (okEvents (allocSeq bs sizes).1)
  | [], bs, hg, _ => by
      rw [allocSeq_nil]
      refine ⟨hg, le_refl _, fun j hj => ?_, fun e he => absurd he (List.not_mem_nil e),
        fun e he => absurd he (List.not_mem_nil e), List.Pairwise.nil⟩
      exact ⟨bs.get ⟨j, hj⟩, bs.get ⟨j, hj⟩, List.get?_eq_get hj, List.get?_eq_get hj,
        le_refl _⟩
  | s :: ss, bs, hg, hsz => by
      have hs1 : 0 < s := (hsz s (List.mem_cons_self _ _)).1
      have hs2 : s ≤ 2 ^ 61 := (hsz s (List.mem_cons_self _ _)).2
      have hss : ∀ x ∈ ss, 0 < x ∧ x ≤ 2 ^ 61 := fun x hx => hsz x (List.mem_cons_of_mem _ hx)
      obtain ⟨i, off, bs2, heq, hg2, hlen2, hframe, ⟨bi, hgeti, hbiused, hbicap⟩, hoffold⟩ :=
        alloc_step_spec bs s hg hs1 hs2
      obtain ⟨ihg, ihlen, ihmono, ihev, ihstart, ihpw⟩ := allocSeq_spec ss bs2 hg2 hss
      have h1 : (arena_alloc bs s).1 = .ok i off := by rw [heq]
      have h2 : (arena_alloc bs s).2 = bs2 := by rw [heq]
      obtain ⟨hi2, hbi_get⟩ := List.get?_eq_some.mp hgeti
      have hev_eq : (allocSeq bs (s :: ss)).1
          = (.ok i off, arena_align_size s ARENA_ALIGNMENT) :: (allocSeq bs2 ss).1 := by
        rw [allocSeq_cons, h1, h2]
      have hfin_eq : (allocSeq bs (s :: ss)).2 = (allocSeq bs2 ss).2 := by
        rw [allocSeq_cons, h2]
      have hok_eq : okEvents (allocSeq bs (s :: ss)).1
          = (i, off, arena_align_size s 8) :: okEvents (allocSeq bs2 ss).1 := by
        rw [hev_eq]
        rfl
      rw [hok_eq, hfin_eq]
      refine ⟨ihg, le_trans hlen2 ihlen, ?_, ?_, ?_, ?_⟩
      · intro j hj
        by_cases hji : j = i
        · subst hji
          have hb : bs.get? j = some (bs.get ⟨j, hj⟩) := List.get?_eq_get hj
          have hoff : off = (bs.get ⟨j, hj⟩).used := hoffold _ hb
          obtain ⟨b', b2, hb', hb2, hm⟩ := ihmono j hi2
          have hbi' : b' = bi := by
            rw [hgeti] at hb'
            exact (Option.some_inj.mp hb').symm
          refine ⟨bs.get ⟨j, hj⟩, b2, hb, hb2, ?_⟩
          rw [← hoff]
          calc off ≤ off + arena_align_size s 8 := Nat.le_add_right _ _
            _ = bi.used := hbiused.symm
            _ = b'.used := by rw [hbi']
            _ ≤ b2.used := hm
        · have hb : bs.get? j = some (bs.get ⟨j, hj⟩) := List.get?_eq_get hj
          obtain ⟨b', b2, hb', hb2, hm⟩ := ihmono j (lt_of_lt_of_le hj hlen2)
          have hbb : b' = bs.get ⟨j, hj⟩ := by
            rw [hframe j hji hj, hb] at hb'
            exact (Option.some_inj.mp hb').symm
          refine ⟨bs.get ⟨j, hj⟩, b2, hb, hb2, ?_⟩
          rw [← hbb]
          exact hm
      · intro e he
        rcases List.mem_cons.mp he with he | he
        · subst he
          obtain ⟨b', b2, hb', hb2, hm⟩ := ihmono i hi2
          have hbi' : b' = bi := by
            rw [hgeti] at hb'
            exact (Option.some_inj.mp hb').symm
          refine ⟨b2, hb2, ?_, ?_⟩
          · show off + arena_align_size s 8 ≤ b2.used
            calc off + arena_align_size s 8 = bi.used := hbiused.symm
              _ = b'.used := by rw [hbi']
              _ ≤ b2.used := hm
          · exact (((good_iff _).mp ihg).2 b2 (List.get?_mem hb2)).1
        · exact ihev e he
      · intro e he b0 hb0
        rcases List.mem_cons.mp he with he | he
        · subst he
          exact Nat.le_of_eq (hoffold b0 hb0).symm
        · obtain ⟨hjlt, _⟩ := List.get?_eq_some.mp hb0
          by_cases hji : e.1 = i
          · have hbu : b0.used = off := by
              rw [hji] at hb0
              exact (hoffold b0 hb0).symm
            have hstep := ihstart e he bi (by rw [hji]; exact hgeti)
            calc b0.used = off := hbu
              _ ≤ off + arena_align_size s 8 := Nat.le_add_right _ _
              _ = bi.used := hbiused.symm
              _ ≤ e.2.1 := hstep
          · refine ihstart e he b0 ?_
            rw [hframe e.1 hji hjlt]
            exact hb0
      · rw [List.pairwise_cons]
        refine ⟨?_, ihpw⟩
        intro f hf hfi
        have hstep := ihstart f hf bi (by rw [← hfi]; exact hgeti)
        show off + arena_align_size s 8 ≤ f.2.1
        calc off + arena_align_size s 8 = bi.used := hbiused.symm
          _ ≤ f.2.1 := hstep

/-- C5 (amended): for any run of allocations from a Good chain (non-NULL,
head capacity ≤ 2^62, used ≤ capacity ≤ 2^63 per block) with requested
sizes in (0, 2^61] — so that the 64-bit size arithmetic cannot wrap — the
regions [offset, offset + aligned size) handed out from the same block are
pairwise disjoint, and each lies entirely inside that block's capacity. -/
theorem alloc_no_overlap_spec (bs : List Block) (sizes : List Nat)
    (hg : Good bs) (hs : ∀ s ∈ sizes, 0 < s ∧ s ≤ 2 ^ 61) :
    (∀ e ∈ okEvents (allocSeq bs sizes).1,
        ∃ b, (allocSeq bs sizes).2.get? e.1 = some b
        ∧ e.2.1 + e.2.2 ≤ b.capacity)
    ∧ List.Pairwise
        (fun e f => e.1 = f.1 → e.2.1 + e.2.2 ≤ f.2.1 ∨ f.2.1 + f.2.2 ≤ e.2.1)
        (okEvents (allocSeq bs sizes).1) := by
  obtain ⟨hgf, _, _, hev, _, hpw⟩ := allocSeq_spec sizes bs hg hs
  refine ⟨fun e he => ?_, ?_⟩
  · obtain ⟨b2, hget, hle, hcap⟩ := hev e he
    exact ⟨b2, hget, le_trans hle hcap⟩
  · exact hpw.imp (fun h hef => Or.inl (h hef))

theorem alloc_no_overlap_spec_inst :
    okEvents (allocSeq [arena_init 128] [18, 11, 64]).1
      = [(0, 0, 24), (0, 24, 16), (0, 40, 64)]
    ∧ List.Pairwise
        (fun e f => e.1 = f.1 → e.2.1 + e.2.2 ≤ f.2.1 ∨ f.2.1 + f.2.2 ≤ e.2.1)
        (okEvents (allocSeq [arena_init 128] [18, 11, 64]).1) := by
  refine ⟨by decide, (alloc_no_overlap_spec [arena_init 128] [18, 11, 64] ?_ ?_).2⟩
  · exact ⟨by decide, by decide⟩
  · decide

/-- C5 (counterexample to the claim as stated, with no size restriction):
from a fresh 128-byte arena, alloc(8) hands out region [0, 8) of block 0;
alloc(2^64 - 10) aligns to 2^64 - 8, the fit check 8 + (2^64 - 8) wraps to
0 ≤ 128, so the same block hands out region [8, 8 + 2^64 - 8) — far beyond
its 128-byte capacity — and resets used to 0; a further alloc(8) then
hands out [0, 8) of block 0 again, overlapping the first region. -/
theorem alloc_overlap_wrap_cex :
    okEvents (allocSeq [arena_init 128] [8, 2 ^ 64 - 10, 8]).1
      = [(0, 0, 8), (0, 8, 2 ^ 64 - 8), (0, 0, 8)]
    ∧ (allocSeq [arena_init 128] [8, 2 ^ 64 - 10, 8]).2 = [⟨128, 8, some ()⟩]
    ∧ ¬ (8 + (2 ^ 64 - 8) ≤ 128)
    ∧ ¬ (0 + 8 ≤ 0 ∨ 0 + 8 ≤ 0) := by decide
